import Mathlib

/-!
Verification of the EXCLURAD web-viewer kinematic slice-and-curve-selection
engine.  The repository contains two near-duplicate JavaScript realizations of
the engine: the one embedded in the third segment of `src/unnamed/part_000`
(`uniqueSorted`, `buildDiscreteSlider`, `groupCoverage`, `buildCurves`, `draw`)
and the one in `src/docs/assets/app.js` (`uniqSorted`, `makeDiscreteSlider`,
`currentSelection`, `render`).  Both are embedded below.  JavaScript numbers
are modelled by `JVal`: a finite rational, NaN, or a signed infinity; the
floating-point representation itself is idealized as exact rational
arithmetic, which is the level at which the specification speaks.
-/

namespace Exclurad

/-- A JavaScript number: finite (idealized as a rational), NaN, or ±Infinity. -/
inductive JVal where
  | fin (q : ℚ)
  | nan
  | pinf
  | ninf
deriving DecidableEq, Repr

/-- `Number.isFinite`. -/
def JVal.isFinite : JVal → Bool
  | .fin _ => true
  | _ => false

/-- Numeric key of a finite value (0 on non-finite inputs; only ever used on
values already checked finite, mirroring comparator uses on filtered data). -/
def JVal.q : JVal → ℚ
  | .fin x => x
  | _ => 0

/-- `Math.abs(x)` on a finite value. -/
def qabs (x : ℚ) : ℚ := if x < 0 then -x else x

/-- Exact rational subtraction, written through `mkRat` so that it evaluates
by kernel reduction; it equals `x - y` (see `qsub_eq_sub` below). -/
def qsub (x y : ℚ) : ℚ := mkRat (x.num * y.den - y.num * x.den) (x.den * y.den)

/-- `approxEq(a, b, eps) = Math.abs(a - b) <= eps` (part_000 line 119).  If
either argument is NaN or infinite, the JavaScript comparison evaluates to
false (`NaN <= eps` and `Infinity <= eps` are false for the finite tolerances
used here). -/
def approxEq (a b : JVal) (eps : ℚ) : Bool :=
  match a, b with
  | .fin x, .fin y => qabs (qsub x y) ≤ eps
  | _, _ => false

/-- JavaScript strict equality `===` on numbers: `NaN === NaN` is false,
infinities compare equal to themselves. -/
def strictEq : JVal → JVal → Bool
  | .fin x, .fin y => x == y
  | .pinf, .pinf => true
  | .ninf, .ninf => true
  | _, _ => false

/-- The four kinematic UI variables `'W' | 'Q2' | 'cos' | 'phi'`. -/
inductive Var where
  | W
  | Q2
  | cos
  | phi
deriving DecidableEq, Repr

/-- The corresponding dataframe column names. -/
inductive ColKey where
  | w_r
  | q2_r
  | ct_r
  | phi_deg
deriving DecidableEq, Repr

/-- `VARCOL = { W: "w_r", Q2: "q2_r", cos: "ct_r", phi: "phi_deg" }`. -/
def VARCOL : Var → ColKey
  | .W => .w_r
  | .Q2 => .q2_r
  | .cos => .ct_r
  | .phi => .phi_deg

/-- The y-metric choice `'delta_xsec_ratio' | 'A_ratio'`. -/
inductive YCol where
  | delta_xsec_ratio
  | A_ratio
deriving DecidableEq, Repr

/-- The materialized column table (`materialize` in both front ends): four
kinematic columns, two response columns, three validity columns. -/
structure Data where
  w_r : List JVal
  q2_r : List JVal
  ct_r : List JVal
  phi_deg : List JVal
  delta_xsec_ratio : List JVal
  A_ratio : List JVal
  ok_kin : List Bool
  ok_delta : List Bool
  ok_asym : List Bool
deriving Repr

/-- Column access `data[key]`. -/
def Data.col (d : Data) : ColKey → List JVal
  | .w_r => d.w_r
  | .q2_r => d.q2_r
  | .ct_r => d.ct_r
  | .phi_deg => d.phi_deg

/-- `const N = data.ok_kin.length` (the row count both engines iterate over). -/
def Data.N (d : Data) : Nat := d.ok_kin.length

/-- The selected y column (`data.delta_xsec_ratio` or `data.A_ratio`). -/
def Data.ycolArr (d : Data) : YCol → List JVal
  | .delta_xsec_ratio => d.delta_xsec_ratio
  | .A_ratio => d.A_ratio

/-- The matching validity column (`data.ok_delta` or `data.ok_asym`). -/
def Data.yOkArr (d : Data) : YCol → List Bool
  | .delta_xsec_ratio => d.ok_delta
  | .A_ratio => d.ok_asym

/-- The per-axis match tolerance used by `groupCoverage` and `buildCurves`:
`1e-3` for the `phi_deg` column, `1e-6` for the other three (written through
`mkRat` so that the values evaluate by kernel reduction). -/
def epsOf : ColKey → ℚ
  | .phi_deg => mkRat 1 1000
  | _ => mkRat 1 1000000

/-! ### Axis Domain Builder (both realizations) -/

/-- Iteration core of JavaScript `Set` construction: keep the first occurrence
of each value already-seen values are skipped.  `Set` membership uses
SameValueZero, which on this model of numbers coincides with structural
equality (`NaN` is a single constructor and positive and negative zero are
identified in ℚ). -/
def setDedupGo (seen : List JVal) : List JVal → List JVal
  | [] => []
  | v :: rest => if v ∈ seen then setDedupGo seen rest else v :: setDedupGo (v :: seen) rest

/-- `Array.from(new Set(arr))`: first-occurrence deduplication. -/
def setDedup (l : List JVal) : List JVal := setDedupGo [] l

/-- The numeric comparator `(a, b) => a - b` read as a "precedes or ties"
relation.  All call sites sort lists of finite values, on which the
subtraction comparator orders by the numeric value. -/
def jleR (a b : JVal) : Prop := a.q ≤ b.q

instance : DecidableRel jleR := fun a b => by unfold jleR; infer_instance

instance : IsTotal JVal jleR := ⟨fun a b => le_total a.q b.q⟩

instance : IsTrans JVal jleR := ⟨fun _ _ _ h1 h2 => le_trans h1 h2⟩

/-- `.sort((a, b) => a - b)`: ascending stable numeric sort.  The JavaScript
specification requires `Array.prototype.sort` to be stable, and a stable sort
with respect to a total preorder comparator has a unique output; it is
realized here by the (stable) insertion sort. -/
def jsSortAsc (l : List JVal) : List JVal := l.insertionSort jleR

/-- `uniqSorted` from app.js (lines 124-126):
`Array.from(new Set(arr.filter(Number.isFinite))).sort((a,b)=>a-b)`. -/
def uniqSorted (arr : List JVal) : List JVal :=
  jsSortAsc (setDedup (arr.filter JVal.isFinite))

/-- `uniqueSorted` from part_000 (lines 135-140): dedup first, then filter
finite, then sort. -/
def uniqueSorted (arr : List JVal) : List JVal :=
  jsSortAsc ((setDedup arr).filter JVal.isFinite)

/-! ### Slider/Index Controllers -/

/-- `Math.max(0, Math.min(len - 1, i))` used as an array index. -/
def clampIdx (len : Nat) (i : Int) : Nat := (max 0 (min ((len : Int) - 1) i)).toNat

/-- State of a part_000 `buildDiscreteSlider`: its (already sorted) value
domain and the current integer index held by the range input. -/
structure BSlider where
  values : List JVal
  idx : Nat
deriving DecidableEq, Repr

/-- `setFromIndex(idx)`: clamp and store (part_000 lines 157-161). -/
def BSlider.setFromIndex (s : BSlider) (i : Int) : BSlider :=
  ⟨s.values, clampIdx s.values.length i⟩

/-- `getValue = () => values[Number(inputEl.value)]` (part_000 line 162);
an out-of-range index would read `undefined`, modelled as NaN. -/
def BSlider.getValue (s : BSlider) : JVal := s.values.getD s.idx JVal.nan

/-- `buildDiscreteSlider` (part_000 lines 142-169): initialized at
`setFromIndex(Math.floor(values.length / 2))`. -/
def buildDiscreteSlider (values : List JVal) : BSlider :=
  BSlider.setFromIndex ⟨values, 0⟩ ((values.length / 2 : Nat) : Int)

/-- `Math.abs(a - b)` on JavaScript numbers (used by nearest-value snapping):
NaN-propagating, infinite when exactly one side is infinite or signs differ. -/
def jabsSub : JVal → JVal → JVal
  | .fin x, .fin y => .fin (qabs (qsub x y))
  | .nan, _ => .nan
  | _, .nan => .nan
  | .pinf, .pinf => .nan
  | .ninf, .ninf => .nan
  | _, _ => .pinf

/-- JavaScript `<` on numbers: false whenever either side is NaN. -/
def jlt : JVal → JVal → Bool
  | .fin x, .fin y => decide (x < y)
  | .nan, _ => false
  | _, .nan => false
  | .pinf, _ => false
  | _, .pinf => true
  | .ninf, _ => false
  | .fin _, .ninf => false

/-- The nearest-index loop of `setFromValue` (app.js lines 61-71): start at
index 0, scan indices 1.., move when strictly closer. -/
def nearestIdx (arr : List JVal) (v : JVal) : Int :=
  let r := (List.range' 1 (arr.length - 1)).foldl
    (fun (st : Nat × JVal) i =>
      let d := jabsSub (arr.getD i JVal.nan) v
      if jlt d st.2 then (i, d) else st)
    (0, jabsSub (arr.getD 0 JVal.nan) v)
  (r.1 : Int)

/-- Result of `makeDiscreteSlider` (app.js lines 45-79): the deduplicated
sorted finite domain, the initial stored index (`inputEl.value = 0`), the
`get` closure (reading a stored integer index), and the `set` closure
(returning the new stored index). -/
structure MSlider where
  values : List JVal
  init : Int
  get : Int → JVal
  set : Int → JVal → Int

/-- `makeDiscreteSlider` (app.js lines 45-79).  Empty filtered domain: the
control is disabled and `{ get: () => NaN, set: () => {}, values: [] }` is
returned.  Otherwise `get` clamps the stored index into range before
indexing, and `set` snaps to the nearest domain value. -/
def makeDiscreteSlider (input : List JVal) : MSlider :=
  let arr := jsSortAsc (setDedup (input.filter JVal.isFinite))
  if arr.length = 0 then
    ⟨[], 0, fun _ => JVal.nan, fun s _ => s⟩
  else
    ⟨arr, 0, fun s => arr.getD (clampIdx arr.length s) JVal.nan,
      fun _ v => nearestIdx arr v⟩

/-! ### part_000 engine: groupCoverage / buildCurves / draw -/

/-- Base validity part of the `groupCoverage` mask (part_000 lines 178-183):
kinematics flag, the metric-specific flag, and finiteness of the metric's
value column entry. -/
def baseMask (d : Data) (ycol : YCol) (i : Nat) : Bool :=
  d.ok_kin.getD i false &&
    (match ycol with
     | .delta_xsec_ratio =>
        d.ok_delta.getD i false && (d.delta_xsec_ratio.getD i JVal.nan).isFinite
     | .A_ratio =>
        d.ok_asym.getD i false && (d.A_ratio.getD i JVal.nan).isFinite)

/-- Fixed-axis part of the mask (part_000 lines 186-194, and the identical
per-row loop in `buildCurves` lines 228-234): every fixed `(column, value)`
pair must match within `epsOf` of that column. -/
def fixedMatch (d : Data) (fixed : List (ColKey × JVal)) (i : Nat) : Bool :=
  fixed.all (fun kv => approxEq ((d.col kv.1).getD i JVal.nan) kv.2 (epsOf kv.1))

/-- Full admission mask entry of `groupCoverage`. -/
def maskAt (d : Data) (ycol : YCol) (fixed : List (ColKey × JVal)) (i : Nat) : Bool :=
  baseMask d ycol i && fixedMatch d fixed i

/-- `Set.add`: append a distinct x value (insertion order kept). -/
def addX (xs : List ℚ) (x : ℚ) : List ℚ := if x ∈ xs then xs else xs ++ [x]

/-- `map.get(ov).add(xv)` with `map.set(ov, new Set())` on a missing key:
group update in insertion order. -/
def addGroup : List (ℚ × List ℚ) → ℚ → ℚ → List (ℚ × List ℚ)
  | [], ov, xv => [(ov, [xv])]
  | g :: gs, ov, xv =>
      if g.1 = ov then (ov, addX g.2 xv) :: gs else g :: addGroup gs ov xv

/-- One iteration of the distinct-x-by-overlay loop (part_000 lines 198-205):
masked rows with finite overlay and x values are grouped. -/
def gcStep (d : Data) (ycol : YCol) (xKey : ColKey) (fixed : List (ColKey × JVal))
    (overlayKey : ColKey) (gs : List (ℚ × List ℚ)) (i : Nat) : List (ℚ × List ℚ) :=
  if maskAt d ycol fixed i then
    match (d.col overlayKey).getD i JVal.nan, (d.col xKey).getD i JVal.nan with
    | .fin ov, .fin xv => addGroup gs ov xv
    | _, _ => gs
  else gs

/-- The overlay-value → distinct-x-set map of `groupCoverage`, in `Map`
insertion order. -/
def gcGroups (d : Data) (ycol : YCol) (xKey : ColKey) (fixed : List (ColKey × JVal))
    (overlayKey : ColKey) : List (ℚ × List ℚ) :=
  (List.range d.N).foldl (gcStep d ycol xKey fixed overlayKey) []

/-- The ranking comparator `(a, b) => (b.n - a.n) || (a.ov - b.ov)` read as a
"precedes or ties" relation: larger support first, ties by ascending overlay
value. -/
def covR (a b : ℚ × Nat) : Prop := b.2 < a.2 ∨ (a.2 = b.2 ∧ a.1 ≤ b.1)

instance : DecidableRel covR := fun a b => by unfold covR; infer_instance

instance : IsTotal (ℚ × Nat) covR where
  total a b := by
    unfold covR
    rcases Nat.lt_trichotomy a.2 b.2 with h | h | h
    · exact Or.inr (Or.inl h)
    · rcases le_total a.1 b.1 with hq | hq
      · exact Or.inl (Or.inr ⟨h, hq⟩)
      · exact Or.inr (Or.inr ⟨h.symm, hq⟩)
    · exact Or.inl (Or.inl h)

instance : IsTrans (ℚ × Nat) covR where
  trans a b c h1 h2 := by
    unfold covR at h1 h2 ⊢
    rcases h1 with h1 | ⟨h1e, h1l⟩ <;> rcases h2 with h2 | ⟨h2e, h2l⟩
    · exact Or.inl (lt_trans h2 h1)
    · exact Or.inl (h2e ▸ h1)
    · exact Or.inl (h1e ▸ h2)
    · exact Or.inr ⟨h1e.trans h2e, h1l.trans h2l⟩

/-- `groupCoverage` (part_000 lines 171-210): rank the groups as
`{ov, n = distinct-x count}` records, sort by descending support with
ascending-overlay tie-break, and keep those with `n >= minPoints`. -/
def groupCoverage (d : Data) (ycol : YCol) (xvar : Var) (fixed : List (ColKey × JVal))
    (overlayKey : ColKey) (minPoints : Nat) : List (ℚ × Nat) :=
  ((((gcGroups d ycol (VARCOL xvar) fixed overlayKey).map
    (fun g => (g.1, g.2.length))).insertionSort covR).filter
      (fun r => minPoints ≤ r.2))

/-- The per-row admission test of the `buildCurves` inner loop (part_000 lines
222-241): kinematics flag, overlay match within tolerance, fixed matches,
finite x, metric flag, finite y. -/
def rowPasses (d : Data) (ycol : YCol) (xKey overlayKey : ColKey)
    (fixed : List (ColKey × JVal)) (ov : ℚ) (i : Nat) : Bool :=
  d.ok_kin.getD i false &&
  approxEq ((d.col overlayKey).getD i JVal.nan) (JVal.fin ov) (epsOf overlayKey) &&
  fixedMatch d fixed i &&
  ((d.col xKey).getD i JVal.nan).isFinite &&
  ((d.yOkArr ycol).getD i false && ((d.ycolArr ycol).getD i JVal.nan).isFinite)

/-- One iteration of the `buildCurves` point-collection loop: admitted rows
push their `[xv, yv]` pair. -/
def curveStep (d : Data) (ycol : YCol) (xKey overlayKey : ColKey)
    (fixed : List (ColKey × JVal)) (ov : ℚ)
    (pts : List (JVal × JVal)) (i : Nat) : List (JVal × JVal) :=
  if rowPasses d ycol xKey overlayKey fixed ov i then
    pts ++ [((d.col xKey).getD i JVal.nan, (d.ycolArr ycol).getD i JVal.nan)]
  else pts

/-- The unsorted point list collected for one overlay value. -/
def curveRaw (d : Data) (ycol : YCol) (xKey overlayKey : ColKey)
    (fixed : List (ColKey × JVal)) (ov : ℚ) : List (JVal × JVal) :=
  (List.range d.N).foldl (curveStep d ycol xKey overlayKey fixed ov) []

/-- `pts.sort((a, b) => a[0] - b[0])` as a "precedes or ties" relation:
ascending x. -/
def ptR (p r : JVal × JVal) : Prop := p.1.q ≤ r.1.q

instance : DecidableRel ptR := fun a b => by unfold ptR; infer_instance

instance : IsTotal (JVal × JVal) ptR := ⟨fun a b => le_total a.1.q b.1.q⟩

instance : IsTrans (JVal × JVal) ptR := ⟨fun _ _ _ h1 h2 => le_trans h1 h2⟩

/-- The emitted traces of `buildCurves` (part_000 lines 212-262), keeping the
point data of each trace (styling fields are not modelled): one candidate per
overlay value in order, dropped when its point count is below `minPoints`,
otherwise sorted ascending by x. -/
def buildCurvesTraces (d : Data) (ycol : YCol) (xvar : Var) (overlayKey : ColKey)
    (fixed : List (ColKey × JVal)) (overlayList : List ℚ) (minPoints : Nat) :
    List (List (JVal × JVal)) :=
  overlayList.filterMap (fun ov =>
    let pts := curveRaw d ycol (VARCOL xvar) overlayKey fixed ov
    if pts.length < minPoints then none else some (pts.insertionSort ptR))

/-- The `allY` accumulator of `buildCurves`: the y values of every emitted
trace, in emission order. -/
def buildCurvesAllY (d : Data) (ycol : YCol) (xvar : Var) (overlayKey : ColKey)
    (fixed : List (ColKey × JVal)) (overlayList : List ℚ) (minPoints : Nat) :
    List JVal :=
  ((buildCurvesTraces d ycol xvar overlayKey fixed overlayList minPoints).map
    (fun t => t.map (fun p => p.2))).flatten

/-- `allVars = ["W", "Q2", "cos", "phi"]`. -/
def allVars : List Var := [Var.W, Var.Q2, Var.cos, Var.phi]

/-- The fixed-constraint object built by `draw` (part_000 lines 339-347): the
two axes that are neither x nor overlay, with their current slider values, in
canonical W, Q2, cos, phi order. -/
def fixedOf (xvar overlay : Var) (sliderVals : Var → JVal) : List (ColKey × JVal) :=
  (allVars.filter (fun v => v != xvar && v != overlay)).map
    (fun v => (VARCOL v, sliderVals v))

/-- `cover.slice(0, maxTraces).map(r => r.ov).sort((a,b) => a - b)` with
`maxTraces = 8` (part_000 lines 350-353). -/
def pickedOverlays (d : Data) (ycol : YCol) (xvar overlay : Var)
    (sliderVals : Var → JVal) : List ℚ :=
  let cover := groupCoverage d ycol xvar (fixedOf xvar overlay sliderVals)
    (VARCOL overlay) 4
  ((cover.take 8).map (fun r => r.1)).insertionSort (· ≤ ·)

/-- The full curve set computed by a successful `draw` (part_000 lines
349-356). -/
def drawCompute (d : Data) (ycol : YCol) (xvar overlay : Var)
    (sliderVals : Var → JVal) : List (List (JVal × JVal)) :=
  buildCurvesTraces d ycol xvar (VARCOL overlay)
    (fixedOf xvar overlay sliderVals) (pickedOverlays d ycol xvar overlay sliderVals) 4

/-- The externally visible plot state: the currently rendered curve set. -/
structure PlotState where
  curves : List (List (JVal × JVal))
deriving DecidableEq, Repr

/-- `draw` (part_000 lines 326-390): when the overlay variable equals the
x variable, an alert is raised and the function returns before any filtering
or curve building, leaving the plot untouched; otherwise `Plotly.newPlot`
replaces the plot with the computed traces. -/
def draw (st : PlotState) (d : Data) (xvar overlay : Var) (ycol : YCol)
    (sliderVals : Var → JVal) : PlotState × Option String :=
  if overlay = xvar then
    (st, some ("Overlay variable must differ from x-axis."))
  else
    (⟨drawCompute d ycol xvar overlay sliderVals⟩, none)

/-! ### app.js engine: currentSelection / render -/

/-- `['W','Q2','cos','phi'].filter(v => v !== x && v !== overlay)`. -/
def csFixedVars (x overlay : Var) : List Var :=
  allVars.filter (fun v => v != x && v != overlay)

/-- The admission mask of `currentSelection` (app.js lines 261-273):
kinematics flag, metric flag, and exact `===` equality of each fixed column
against its slider value (a row is dropped when `col[i] !== fixVals[v]`). -/
def csMask (d : Data) (ykey : YCol) (x overlay : Var) (sliderVals : Var → JVal)
    (i : Nat) : Bool :=
  (d.ok_kin.getD i false && (d.yOkArr ykey).getD i false) &&
  (csFixedVars x overlay).all
    (fun v => strictEq ((d.col (VARCOL v)).getD i JVal.nan) (sliderVals v))

/-- `Map.set(x, y)`: overwrite in place when the key exists, else append. -/
def mapSet (m : List (ℚ × ℚ)) (x y : ℚ) : List (ℚ × ℚ) :=
  match m with
  | [] => [(x, y)]
  | p :: rest => if p.1 = x then (x, y) :: rest else p :: mapSet rest x y

/-- `byOv.get(ovVal).set(xVal, yVal)` with `byOv.set(ovVal, new Map())` on a
missing key. -/
def byOvSet (m : List (ℚ × List (ℚ × ℚ))) (ov x y : ℚ) : List (ℚ × List (ℚ × ℚ)) :=
  match m with
  | [] => [(ov, [(x, y)])]
  | g :: rest => if g.1 = ov then (ov, mapSet g.2 x y) :: rest else g :: byOvSet rest ov x y

/-- `mp.get(xv)` for a key known to be present. -/
def mapGetD (m : List (ℚ × ℚ)) (x : ℚ) : ℚ :=
  ((m.find? (fun p => p.1 == x)).map (fun p => p.2)).getD 0

/-- One trace record of `currentSelection`: overlay value, sorted x keys,
their y values, and the coverage count. -/
structure SelTrace where
  ovVal : ℚ
  xs : List ℚ
  ys : List ℚ
  n : Nat
deriving DecidableEq, Repr

/-- The trace ranking comparator `(a, b) => (b.n - a.n) || (a.ovVal - b.ovVal)`
as a "precedes or ties" relation. -/
def selR (a b : SelTrace) : Prop := b.n < a.n ∨ (a.n = b.n ∧ a.ovVal ≤ b.ovVal)

instance : DecidableRel selR := fun a b => by unfold selR; infer_instance

instance : IsTotal SelTrace selR where
  total a b := by
    unfold selR
    rcases Nat.lt_trichotomy a.n b.n with h | h | h
    · exact Or.inr (Or.inl h)
    · rcases le_total a.ovVal b.ovVal with hq | hq
      · exact Or.inl (Or.inr ⟨h, hq⟩)
      · exact Or.inr (Or.inr ⟨h.symm, hq⟩)
    · exact Or.inl (Or.inl h)

instance : IsTrans SelTrace selR where
  trans a b c h1 h2 := by
    unfold selR at h1 h2 ⊢
    rcases h1 with h1 | ⟨h1e, h1l⟩ <;> rcases h2 with h2 | ⟨h2e, h2l⟩
    · exact Or.inl (lt_trans h2 h1)
    · exact Or.inl (h2e ▸ h1)
    · exact Or.inl (h1e ▸ h2)
    · exact Or.inr ⟨h1e.trans h2e, h1l.trans h2l⟩

/-- One iteration of the `byOv` collection loop (app.js lines 277-285): masked
rows whose overlay, x and y values are all finite update the per-overlay
x → y map. -/
def csStep (d : Data) (ykey : YCol) (x overlay : Var) (sliderVals : Var → JVal)
    (m : List (ℚ × List (ℚ × ℚ))) (i : Nat) : List (ℚ × List (ℚ × ℚ)) :=
  if csMask d ykey x overlay sliderVals i then
    match (d.col (VARCOL overlay)).getD i JVal.nan, (d.col (VARCOL x)).getD i JVal.nan,
        (d.ycolArr ykey).getD i JVal.nan with
    | .fin ovVal, .fin xVal, .fin yVal => byOvSet m ovVal xVal yVal
    | _, _, _ => m
  else m

/-- `currentSelection` (app.js lines 224-296): mask, group into per-overlay
x → y maps, turn each group into `{ovVal, xs, ys, n}` with xs sorted
ascending, and sort the traces by coverage then overlay value. -/
def currentSelection (d : Data) (x overlay : Var) (sliderVals : Var → JVal)
    (ykey : YCol) : List SelTrace :=
  let byOv := (List.range d.N).foldl (csStep d ykey x overlay sliderVals) []
  let traces := byOv.map (fun g =>
    let xs := (g.2.map (fun p => p.1)).insertionSort (· ≤ ·)
    SelTrace.mk g.1 xs (xs.map (fun xv => mapGetD g.2 xv)) xs.length)
  traces.insertionSort selR

/-- The traces actually handed to Plotly by `render` (app.js lines 310-325):
the first `maxTraces = 8` of the ranked traces, with no minimum-point check. -/
def renderTraces (d : Data) (x overlay : Var) (sliderVals : Var → JVal)
    (ykey : YCol) : List SelTrace :=
  (currentSelection d x overlay sliderVals ykey).take 8

/-! ### Concrete tables used to instantiate and to refute claims -/

/-- The φ* grid of the spec's concrete scenario (10 bins). -/
def phis : List ℚ := [18, 54, 90, 126, 162, 198, 234, 270, 306, 342]

/-- A 10-row table in the shape of the spec's concrete scenario: a single
(W, Q2, cosθ*) cell with 10 φ* bins, all rows valid and finite. -/
def dA : Data :=
  ⟨List.replicate 10 (JVal.fin 1), List.replicate 10 (JVal.fin 2),
   List.replicate 10 (JVal.fin 0), phis.map JVal.fin,
   phis.map JVal.fin, List.replicate 10 (JVal.fin 0),
   List.replicate 10 true, List.replicate 10 true, List.replicate 10 true⟩

/-- Slider values matching `dA`'s fixed axes (Q2 = 2, cosθ* = 0). -/
def svA : Var → JVal := fun v =>
  match v with
  | .Q2 => JVal.fin 2
  | .cos => JVal.fin 0
  | _ => JVal.fin 0

/-- A single fully valid, fully finite row. -/
def d1 : Data :=
  ⟨[JVal.fin 1], [JVal.fin 2], [JVal.fin 3], [JVal.fin 4],
   [JVal.fin 5], [JVal.fin 6], [true], [true], [true]⟩

/-- Slider values matching `d1`'s cos and φ* entries exactly. -/
def sv1 : Var → JVal := fun v =>
  match v with
  | .cos => JVal.fin 3
  | .phi => JVal.fin 4
  | _ => JVal.fin 0

/-- Five rows in one overlay slice whose first two rows share the x value
φ* = 1 with different y values (a tie in x). -/
def d9 : Data :=
  ⟨[JVal.fin 1, JVal.fin 1, JVal.fin 1, JVal.fin 1, JVal.fin 1],
   [JVal.fin 2, JVal.fin 2, JVal.fin 2, JVal.fin 2, JVal.fin 2],
   [JVal.fin 3, JVal.fin 3, JVal.fin 3, JVal.fin 3, JVal.fin 3],
   [JVal.fin 1, JVal.fin 1, JVal.fin 2, JVal.fin 3, JVal.fin 4],
   [JVal.fin 5, JVal.fin 7, JVal.fin 8, JVal.fin 9, JVal.fin 10],
   List.replicate 5 (JVal.fin 0),
   List.replicate 5 true, List.replicate 5 true, List.replicate 5 true⟩

/-- Slider values matching `d9`'s fixed axes (Q2 = 2, cosθ* = 3). -/
def sv9 : Var → JVal := fun v =>
  match v with
  | .Q2 => JVal.fin 2
  | .cos => JVal.fin 3
  | _ => JVal.fin 0

/-- One row whose flags are all true and whose fixed axes match, but whose
δ value is NaN. -/
def d2 : Data :=
  ⟨[JVal.fin 1], [JVal.fin 2], [JVal.fin 3], [JVal.fin 4],
   [JVal.nan], [JVal.fin 6], [true], [true], [true]⟩

/-- Fixed constraints matching `d2`'s cos and φ* entries. -/
def fx2 : List (ColKey × JVal) := [(ColKey.ct_r, JVal.fin 3), (ColKey.phi_deg, JVal.fin 4)]

/-- A three-element domain, whose middle element differs from its first. -/
def l3 : List JVal := [JVal.fin 1, JVal.fin 2, JVal.fin 3]

/-- Ten rows in three overlay slices of one fixed cell: W = 5 with five φ*
bins, W = 3 with four, W = 7 with one.  Descending-coverage order (5, 3, 7)
differs from ascending overlay order (3, 5, 7), and the W = 7 slice is below
the minimum-support threshold. -/
def dC : Data :=
  ⟨[JVal.fin 5, JVal.fin 5, JVal.fin 5, JVal.fin 5, JVal.fin 5,
    JVal.fin 3, JVal.fin 3, JVal.fin 3, JVal.fin 3, JVal.fin 7],
   List.replicate 10 (JVal.fin 2), List.replicate 10 (JVal.fin 0),
   [JVal.fin 1, JVal.fin 2, JVal.fin 3, JVal.fin 4, JVal.fin 5,
    JVal.fin 1, JVal.fin 2, JVal.fin 3, JVal.fin 4, JVal.fin 1],
   List.replicate 10 (JVal.fin 1), List.replicate 10 (JVal.fin 0),
   List.replicate 10 true, List.replicate 10 true, List.replicate 10 true⟩

/-- Slider values matching `dC`'s fixed axes (Q2 = 2, cosθ* = 0). -/
def svC : Var → JVal := fun v =>
  match v with
  | .Q2 => JVal.fin 2
  | .cos => JVal.fin 0
  | _ => JVal.fin 0

/-! ### Helper lemmas -/

theorem foldl_preserve {α β : Type} (f : β → α → β) (P : β → Prop)
    (h : ∀ b a, P b → P (f b a)) : ∀ (l : List α) (b : β), P b → P (l.foldl f b)
  | [], _, hb => hb
  | a :: l, b, hb => foldl_preserve f P h l (f b a) (h b a hb)

theorem JVal.eq_fin_of_isFinite {a : JVal} (h : a.isFinite = true) : a = .fin a.q := by
  cases a <;> simp_all [JVal.isFinite, JVal.q]

theorem qsub_eq_sub (x y : ℚ) : qsub x y = x - y := (Rat.sub_def' x y).symm

theorem qabs_eq_abs (x : ℚ) : qabs x = |x| := by
  rw [qabs]
  rcases lt_or_ge x 0 with h | h
  · rw [if_pos h, abs_of_neg h]
  · rw [if_neg (not_lt.2 h), abs_of_nonneg h]

theorem mem_setDedupGo (v : JVal) : ∀ (l seen : List JVal),
    v ∈ setDedupGo seen l ↔ (v ∈ l ∧ v ∉ seen)
  | [], seen => by simp [setDedupGo]
  | a :: l, seen => by
    by_cases h : a ∈ seen
    · rw [setDedupGo, if_pos h, mem_setDedupGo v l seen]
      constructor
      · rintro ⟨hl, hs⟩
        exact ⟨List.mem_cons_of_mem a hl, hs⟩
      · rintro ⟨hal, hs⟩
        rcases List.mem_cons.1 hal with rfl | hl
        · exact absurd h hs
        · exact ⟨hl, hs⟩
    · rw [setDedupGo, if_neg h]
      constructor
      · intro hmem
        rcases List.mem_cons.1 hmem with rfl | hmem2
        · exact ⟨List.mem_cons_self v l, h⟩
        · rcases (mem_setDedupGo v l (a :: seen)).1 hmem2 with ⟨hl, hs⟩
          exact ⟨List.mem_cons_of_mem a hl, fun hv => hs (List.mem_cons_of_mem a hv)⟩
      · rintro ⟨hal, hs⟩
        rcases List.mem_cons.1 hal with rfl | hl
        · exact List.mem_cons_self v _
        · by_cases hv : v = a
          · exact hv ▸ List.mem_cons_self a _
          · refine List.mem_cons_of_mem a ((mem_setDedupGo v l (a :: seen)).2 ⟨hl, ?_⟩)
            intro hmem
            rcases List.mem_cons.1 hmem with h1 | h2
            · exact hv h1
            · exact hs h2

theorem nodup_setDedupGo : ∀ (l seen : List JVal), (setDedupGo seen l).Nodup
  | [], seen => by simp [setDedupGo]
  | a :: l, seen => by
    by_cases h : a ∈ seen
    · rw [setDedupGo, if_pos h]; exact nodup_setDedupGo l seen
    · rw [setDedupGo, if_neg h]
      refine List.Nodup.cons ?_ (nodup_setDedupGo l (a :: seen))
      intro hmem
      exact ((mem_setDedupGo a l (a :: seen)).1 hmem).2 (List.mem_cons_self a seen)

theorem mem_setDedup (v : JVal) (l : List JVal) : v ∈ setDedup l ↔ v ∈ l := by
  rw [setDedup, mem_setDedupGo]; simp

theorem nodup_setDedup (l : List JVal) : (setDedup l).Nodup := nodup_setDedupGo l []

theorem mem_jsSortAsc (v : JVal) (l : List JVal) : v ∈ jsSortAsc l ↔ v ∈ l := by
  rw [jsSortAsc, List.mem_insertionSort]

theorem nodup_jsSortAsc (l : List JVal) (h : l.Nodup) : (jsSortAsc l).Nodup :=
  ((List.perm_insertionSort jleR l).nodup_iff).2 h

/-- A sorted deduplicated list of finite values is strictly increasing in its
numeric keys. -/
theorem jsSortAsc_strict (l : List JVal) (hn : l.Nodup)
    (hf : ∀ v ∈ l, v.isFinite = true) :
    (jsSortAsc l).Pairwise (fun a b => a.q < b.q) := by
  have hs : (jsSortAsc l).Pairwise jleR := List.sorted_insertionSort jleR l
  have hnd : (jsSortAsc l).Nodup := nodup_jsSortAsc l hn
  have hcomb := hs.and hnd
  refine hcomb.imp_of_mem ?_
  intro a b ha hb hab
  rcases hab with ⟨hle, hne⟩
  have hle' : a.q ≤ b.q := hle
  rcases lt_or_eq_of_le hle' with h | h
  · exact h
  · exfalso
    have hfa := JVal.eq_fin_of_isFinite (hf a ((mem_jsSortAsc a l).1 ha))
    have hfb := JVal.eq_fin_of_isFinite (hf b ((mem_jsSortAsc b l).1 hb))
    exact hne (by rw [hfa, hfb, h])

theorem map_fst_addGroup : ∀ (gs : List (ℚ × List ℚ)) (ov xv : ℚ),
    (addGroup gs ov xv).map Prod.fst =
      if ov ∈ gs.map Prod.fst then gs.map Prod.fst else gs.map Prod.fst ++ [ov]
  | [], ov, xv => by simp [addGroup]
  | g :: gs, ov, xv => by
    by_cases h : g.1 = ov
    · rw [addGroup, if_pos h]
      simp [h]
    · rw [addGroup, if_neg h]
      have hmem : (ov ∈ (g :: gs).map Prod.fst) ↔ (ov ∈ gs.map Prod.fst) := by
        simp [List.mem_cons]
        intro he
        exact absurd he.symm h
      by_cases h2 : ov ∈ gs.map Prod.fst
      · rw [List.map_cons, map_fst_addGroup gs ov xv, if_pos h2, if_pos (hmem.2 h2)]
        simp
      · rw [List.map_cons, map_fst_addGroup gs ov xv, if_neg h2,
          if_neg (fun hc => h2 (hmem.1 hc))]
        simp

theorem nodup_fst_addGroup (gs : List (ℚ × List ℚ)) (ov xv : ℚ)
    (h : (gs.map Prod.fst).Nodup) : ((addGroup gs ov xv).map Prod.fst).Nodup := by
  rw [map_fst_addGroup]
  by_cases h2 : ov ∈ gs.map Prod.fst
  · rwa [if_pos h2]
  · rw [if_neg h2]
    simp [List.nodup_append, h, h2]

theorem nodup_fst_gcGroups (d : Data) (ycol : YCol) (xKey : ColKey)
    (fixed : List (ColKey × JVal)) (overlayKey : ColKey) :
    ((gcGroups d ycol xKey fixed overlayKey).map Prod.fst).Nodup := by
  refine foldl_preserve (gcStep d ycol xKey fixed overlayKey)
    (fun gs => (gs.map Prod.fst).Nodup) ?_ (List.range d.N) [] (by simp)
  intro gs i hg
  rw [gcStep]
  by_cases hm : maskAt d ycol fixed i
  · rw [if_pos hm]
    cases hov : (d.col overlayKey).getD i JVal.nan <;>
      cases hxv : (d.col xKey).getD i JVal.nan <;>
      first
        | exact hg
        | exact nodup_fst_addGroup gs _ _ hg
  · rwa [if_neg hm]

theorem curveRaw_finite (d : Data) (ycol : YCol) (xKey overlayKey : ColKey)
    (fixed : List (ColKey × JVal)) (ov : ℚ) :
    ∀ p ∈ curveRaw d ycol xKey overlayKey fixed ov,
      p.1.isFinite = true ∧ p.2.isFinite = true := by
  refine foldl_preserve (curveStep d ycol xKey overlayKey fixed ov)
    (fun pts => ∀ p ∈ pts, p.1.isFinite = true ∧ p.2.isFinite = true) ?_
    (List.range d.N) [] (by simp)
  intro pts i hp
  rw [curveStep]
  by_cases hpass : rowPasses d ycol xKey overlayKey fixed ov i
  · rw [if_pos hpass]
    intro p hmem
    rcases List.mem_append.1 hmem with hmem | hmem
    · exact hp p hmem
    · rcases List.mem_singleton.1 hmem with rfl
      simp only [rowPasses, Bool.and_eq_true] at hpass
      exact ⟨hpass.1.2, hpass.2.2⟩
  · rw [if_neg hpass]
    exact hp

theorem approxEq_iff (a b : JVal) (eps : ℚ) :
    approxEq a b eps = true ↔
      ∃ c w : ℚ, a = JVal.fin c ∧ b = JVal.fin w ∧ |c - w| ≤ eps := by
  cases a <;> cases b <;> simp [approxEq, qsub_eq_sub, qabs_eq_abs]

/-- Every trace emitted by `buildCurvesTraces` has at least `minPoints`
points. -/
theorem buildCurvesTraces_min (d : Data) (ycol : YCol) (xvar : Var)
    (overlayKey : ColKey) (fixed : List (ColKey × JVal)) (overlayList : List ℚ)
    (mp : Nat) : ∀ t ∈ buildCurvesTraces d ycol xvar overlayKey fixed overlayList mp,
      mp ≤ t.length := by
  intro t ht
  rcases List.mem_filterMap.1 ht with ⟨ov, _, hf⟩
  simp only at hf
  by_cases hlen : (curveRaw d ycol (VARCOL xvar) overlayKey fixed ov).length < mp
  · rw [if_pos hlen] at hf
    cases hf
  · rw [if_neg hlen] at hf
    injection hf with hf
    rw [← hf, List.length_insertionSort]
    omega

/-! ### Claim theorems -/

/-- C5: whenever a Selection with overlayAxis equal to xAxis is requested,
`draw` performs no filtering or curve building, returns the rejection message
"Overlay variable must differ from x-axis.", and leaves the previously
rendered plot state unchanged. -/
theorem claim5_reject_overlay_eq_x (st : PlotState) (d : Data) (xvar overlay : Var)
    (ycol : YCol) (sv : Var → JVal) (h : overlay = xvar) :
    draw st d xvar overlay ycol sv =
      (st, some ("Overlay variable must differ from x-axis.")) := by
  rw [draw, if_pos h]

/-- Witness for C5 at a concrete plot state and table. -/
theorem claim5_witness :
    draw ⟨[[(JVal.fin 0, JVal.fin 0)]]⟩ d1 Var.W Var.W YCol.A_ratio sv1 =
      (⟨[[(JVal.fin 0, JVal.fin 0)]]⟩,
        some ("Overlay variable must differ from x-axis.")) :=
  claim5_reject_overlay_eq_x ⟨[[(JVal.fin 0, JVal.fin 0)]]⟩ d1 Var.W Var.W
    YCol.A_ratio sv1 rfl

/-- C8: both query engines are pure functions of the table and the Selection
(including slider-derived fixed values); equal inputs give identical curve
sets.  In this embedding both engines are stateless functions of their
arguments, exactly as the source functions read only the materialized column
data and the current selection. -/
theorem claim8_deterministic (d d' : Data) (ycol ycol' : YCol) (x x' ov ov' : Var)
    (sv sv' : Var → JVal) (hd : d = d') (hy : ycol = ycol') (hx : x = x')
    (ho : ov = ov') (hs : sv = sv') :
    drawCompute d ycol x ov sv = drawCompute d' ycol' x' ov' sv' ∧
    currentSelection d x ov sv ycol = currentSelection d' x' ov' sv' ycol' := by
  subst hd hy hx ho hs
  exact ⟨rfl, rfl⟩

/-- Witness for C8 at the concrete 10-row table. -/
theorem claim8_witness :
    drawCompute dA YCol.delta_xsec_ratio Var.phi Var.W svA =
      drawCompute dA YCol.delta_xsec_ratio Var.phi Var.W svA ∧
    currentSelection dA Var.phi Var.W svA YCol.delta_xsec_ratio =
      currentSelection dA Var.phi Var.W svA YCol.delta_xsec_ratio :=
  claim8_deterministic dA dA YCol.delta_xsec_ratio YCol.delta_xsec_ratio
    Var.phi Var.phi Var.W Var.W svA svA rfl rfl rfl rfl rfl

theorem clampIdx_lt (len : Nat) (i : Int) (h : 0 < len) : clampIdx len i < len := by
  rw [clampIdx]
  have h1 : min ((len : Int) - 1) i ≤ (len : Int) - 1 := min_le_left _ _
  have h2 : max 0 (min ((len : Int) - 1) i) ≤ (len : Int) - 1 := by
    apply max_le _ h1
    omega
  have h3 : (0 : Int) ≤ max 0 (min ((len : Int) - 1) i) := le_max_left _ _
  omega

theorem clampIdx_eq_of_lt (len k : Nat) (h : k < len) : clampIdx len (k : Int) = k := by
  rw [clampIdx]
  have h1 : min ((len : Int) - 1) (k : Int) = (k : Int) := min_eq_right (by omega)
  rw [h1, max_eq_right (by omega : (0 : Int) ≤ (k : Int))]
  omega

theorem clampIdx_zero (len : Nat) (h : 0 < len) : clampIdx len 0 = 0 := by
  have := clampIdx_eq_of_lt len 0 h
  simpa using this

/-- C6 (amended): after a table load, the part_000 `buildDiscreteSlider`
initializes its index at the middle element `⌊n/2⌋` of the domain, so
`getValue()` initially returns `domain[⌊n/2⌋]`; the app.js
`makeDiscreteSlider` instead initializes its index at 0, so its `get()`
initially returns `domain[0]`. -/
theorem claim6_initial_index (values input : List JVal) :
    (values ≠ [] →
      (buildDiscreteSlider values).idx = values.length / 2 ∧
      (buildDiscreteSlider values).getValue = values.getD (values.length / 2) JVal.nan) ∧
    ((makeDiscreteSlider input).init = 0 ∧
     ((makeDiscreteSlider input).values ≠ [] →
       (makeDiscreteSlider input).get (makeDiscreteSlider input).init =
         (makeDiscreteSlider input).values.getD 0 JVal.nan)) := by
  constructor
  · intro hne
    have hlen : 0 < values.length := List.length_pos.2 hne
    have hidx : (buildDiscreteSlider values).idx = values.length / 2 := by
      rw [buildDiscreteSlider, BSlider.setFromIndex]
      exact clampIdx_eq_of_lt values.length (values.length / 2)
        (Nat.div_lt_self hlen one_lt_two)
    exact ⟨hidx, by rw [BSlider.getValue, hidx]; rfl⟩
  · by_cases hA : (jsSortAsc (setDedup (input.filter JVal.isFinite))).length = 0
    · constructor
      · simp [makeDiscreteSlider, hA]
      · intro hne
        exfalso
        apply hne
        simp [makeDiscreteSlider, hA]
    · constructor
      · simp [makeDiscreteSlider, hA]
      · intro _
        simp only [makeDiscreteSlider, if_neg hA]
        rw [clampIdx_zero _ (Nat.pos_of_ne_zero hA)]

/-- Witness for C6 at a concrete three-element domain. -/
theorem claim6_witness :
    (buildDiscreteSlider l3).getValue = l3.getD (l3.length / 2) JVal.nan ∧
    (makeDiscreteSlider l3).init = 0 :=
  ⟨((claim6_initial_index l3 l3).1 (by decide)).2, (claim6_initial_index l3 l3).2.1⟩

/-- Counterexample to C6 as stated: the app.js slider controller over the
domain {1, 2, 3} initially returns domain[0] = 1, not the middle element
domain[⌊3/2⌋] = 2. -/
theorem claim6_cex :
    (makeDiscreteSlider l3).get (makeDiscreteSlider l3).init ≠
      (makeDiscreteSlider l3).values.getD
        ((makeDiscreteSlider l3).values.length / 2) JVal.nan := by
  decide

/-- C10: on an axis column with no finite values, `makeDiscreteSlider`
returns a controller whose values list is empty, whose `get` returns NaN for
every stored index, and whose `set` changes nothing; on a non-empty domain,
`get` clamps the stored index into range, so it always returns a member of
the domain. -/
theorem claim10_slider_safety (input : List JVal) (s : Int) (v : JVal) :
    (input.filter JVal.isFinite = [] → (makeDiscreteSlider input).values = []) ∧
    ((makeDiscreteSlider input).values = [] →
      (makeDiscreteSlider input).get s = JVal.nan ∧
      (makeDiscreteSlider input).set s v = s) ∧
    ((makeDiscreteSlider input).values ≠ [] →
      (makeDiscreteSlider input).get s ∈ (makeDiscreteSlider input).values) := by
  by_cases hA : (jsSortAsc (setDedup (input.filter JVal.isFinite))).length = 0
  · refine ⟨fun _ => by simp [makeDiscreteSlider, hA], fun _ => ?_, fun hne => ?_⟩
    · constructor <;> simp [makeDiscreteSlider, hA]
    · exfalso
      apply hne
      simp [makeDiscreteSlider, hA]
  · refine ⟨fun hfe => ?_, fun hemp => ?_, fun _ => ?_⟩
    · exfalso
      apply hA
      rw [hfe]
      rfl
    · exfalso
      revert hemp
      simp only [makeDiscreteSlider, if_neg hA]
      exact List.ne_nil_of_length_pos (Nat.pos_of_ne_zero hA)
    · simp only [makeDiscreteSlider, if_neg hA]
      rw [List.getD_eq_getElem _ _ (clampIdx_lt _ s (Nat.pos_of_ne_zero hA))]
      exact List.getElem_mem _

/-- Witness for C10: the empty-domain branch at a NaN-only column and the
clamping branch at a two-element domain with an out-of-range stored index. -/
theorem claim10_witness :
    (makeDiscreteSlider [JVal.nan]).get 5 = JVal.nan ∧
    (makeDiscreteSlider [JVal.nan]).set 5 (JVal.fin 1) = 5 ∧
    (makeDiscreteSlider [JVal.fin 2, JVal.fin 1]).get 7 ∈
      (makeDiscreteSlider [JVal.fin 2, JVal.fin 1]).values :=
  ⟨((claim10_slider_safety [JVal.nan] 5 (JVal.fin 1)).2.1 (by decide)).1,
   ((claim10_slider_safety [JVal.nan] 5 (JVal.fin 1)).2.1 (by decide)).2,
   (claim10_slider_safety [JVal.fin 2, JVal.fin 1] 7 (JVal.fin 1)).2.2 (by decide)⟩

/-- C7: both axis-domain builders return a sequence that is strictly
increasing in the numeric value, hence duplicate-free, contains only finite
values (membership implies finiteness), and contains exactly the finite
values occurring in the input column. -/
theorem claim7_domain_builder (arr : List JVal) :
    (uniqSorted arr).Pairwise (fun a b => a.q < b.q) ∧
    (∀ v, v ∈ uniqSorted arr ↔ (v.isFinite = true ∧ v ∈ arr)) ∧
    (uniqueSorted arr).Pairwise (fun a b => a.q < b.q) ∧
    (∀ v, v ∈ uniqueSorted arr ↔ (v.isFinite = true ∧ v ∈ arr)) := by
  refine ⟨?_, ?_, ?_, ?_⟩
  · exact jsSortAsc_strict _ (nodup_setDedup _)
      (fun v hv => (List.mem_filter.1 ((mem_setDedup v _).1 hv)).2)
  · intro v
    rw [uniqSorted, mem_jsSortAsc, mem_setDedup, List.mem_filter]
    exact and_comm
  · exact jsSortAsc_strict _ ((nodup_setDedup arr).filter _)
      (fun v hv => (List.mem_filter.1 hv).2)
  · intro v
    rw [uniqueSorted, mem_jsSortAsc, List.mem_filter, mem_setDedup]
    exact and_comm

/-- C1 (amended): in the part_000 engine every overlay group surviving
`groupCoverage` has support at least 4 and every curve emitted by
`buildCurves` (hence by a successful `draw`) has at least 4 points; the
app.js `currentSelection`/`render` path applies no minimum-support filter and
can emit curves with fewer than 4 points. -/
theorem claim1_min_support (d : Data) (ycol : YCol) (xvar overlay : Var)
    (fixed : List (ColKey × JVal)) (overlayKey : ColKey) (overlayList : List ℚ)
    (sv : Var → JVal) :
    (∀ r ∈ groupCoverage d ycol xvar fixed overlayKey 4, 4 ≤ r.2) ∧
    (∀ t ∈ buildCurvesTraces d ycol xvar overlayKey fixed overlayList 4, 4 ≤ t.length) ∧
    (∀ t ∈ drawCompute d ycol xvar overlay sv, 4 ≤ t.length) := by
  refine ⟨?_, buildCurvesTraces_min d ycol xvar overlayKey fixed overlayList 4, ?_⟩
  · intro r hr
    have h := List.of_mem_filter hr
    exact of_decide_eq_true h
  · intro t ht
    exact buildCurvesTraces_min d ycol xvar (VARCOL overlay)
      (fixedOf xvar overlay sv) (pickedOverlays d ycol xvar overlay sv) 4 t ht

/-- Witness for C1 at the 10-row spec-scenario table: the single emitted
curve has 10 ≥ 4 points. -/
theorem claim1_witness :
    4 ≤ ((drawCompute dA YCol.delta_xsec_ratio Var.phi Var.W svA).headD []).length :=
  (claim1_min_support dA YCol.delta_xsec_ratio Var.phi Var.W
      (fixedOf Var.phi Var.W svA) (VARCOL Var.W) [] svA).2.2 _ (by decide)

/-- Counterexample to C1 as stated: on a one-row table the app.js query
engine (`currentSelection` ranked and truncated by `render`) emits a curve
with a single point, below the minimum-support count of 4. -/
theorem claim1_cex :
    renderTraces d1 Var.W Var.Q2 sv1 YCol.delta_xsec_ratio =
      [SelTrace.mk 2 [1] [5] 1] ∧
    ∃ t ∈ renderTraces d1 Var.W Var.Q2 sv1 YCol.delta_xsec_ratio, t.xs.length < 4 := by
  decide

/-- C3 (amended): in the part_000 engine, `groupCoverage` output is ordered
by strictly descending support with ties broken by strictly ascending overlay
value, and `draw` keeps at most the top 8 of it, re-sorted ascending; the
app.js engine applies no support threshold and emits its kept traces in
descending-coverage order (`selR`), never re-sorting them ascending; both
engines emit at most 8 curves. -/
theorem claim3_ranking (d : Data) (ycol : YCol) (xvar overlay : Var)
    (fixed : List (ColKey × JVal)) (overlayKey : ColKey) (mp : Nat)
    (sv : Var → JVal) :
    (groupCoverage d ycol xvar fixed overlayKey mp).Pairwise
      (fun a b => b.2 < a.2 ∨ (a.2 = b.2 ∧ a.1 < b.1)) ∧
    (pickedOverlays d ycol xvar overlay sv).length ≤ 8 ∧
    (pickedOverlays d ycol xvar overlay sv).Pairwise (· ≤ ·) ∧
    (drawCompute d ycol xvar overlay sv).length ≤ 8 ∧
    (renderTraces d xvar overlay sv ycol).length ≤ 8 ∧
    (currentSelection d xvar overlay sv ycol).Pairwise selR ∧
    (renderTraces d xvar overlay sv ycol).Pairwise selR := by
  have hcs : (currentSelection d xvar overlay sv ycol).Pairwise selR :=
    List.sorted_insertionSort selR _
  have hrt : (renderTraces d xvar overlay sv ycol).Pairwise selR := by
    rw [renderTraces]
    exact hcs.sublist (List.take_sublist 8 _)
  refine ⟨?_, ?_, ?_, ?_, ?_, hcs, hrt⟩
  · rw [groupCoverage]
    have hrows : (((gcGroups d ycol (VARCOL xvar) fixed overlayKey).map
        (fun g => (g.1, g.2.length))).map Prod.fst).Nodup := by
      rw [List.map_map]
      exact nodup_fst_gcGroups d ycol (VARCOL xvar) fixed overlayKey
    have hsort := List.sorted_insertionSort covR
      ((gcGroups d ycol (VARCOL xvar) fixed overlayKey).map (fun g => (g.1, g.2.length)))
    have hperm := (List.perm_insertionSort covR
      ((gcGroups d ycol (VARCOL xvar) fixed overlayKey).map
        (fun g => (g.1, g.2.length)))).map Prod.fst
    have hnd := (hperm.nodup_iff).2 hrows
    have hne := List.pairwise_map.1 hnd
    have hstrict : (List.insertionSort covR
        ((gcGroups d ycol (VARCOL xvar) fixed overlayKey).map
          (fun g => (g.1, g.2.length)))).Pairwise
        (fun a b => b.2 < a.2 ∨ (a.2 = b.2 ∧ a.1 < b.1)) := by
      refine (hsort.and hne).imp ?_
      intro a b hab
      rcases hab with ⟨hcov, hne2⟩
      unfold covR at hcov
      rcases hcov with hc | ⟨he, hle⟩
      · exact Or.inl hc
      · exact Or.inr ⟨he, lt_of_le_of_ne hle hne2⟩
    exact hstrict.sublist (List.filter_sublist _)
  · rw [pickedOverlays, List.length_insertionSort, List.length_map, List.length_take]
    exact min_le_left _ _
  · exact List.sorted_insertionSort (· ≤ ·) _
  · calc (drawCompute d ycol xvar overlay sv).length
        ≤ (pickedOverlays d ycol xvar overlay sv).length :=
          List.length_filterMap_le _ _
      _ ≤ 8 := by
          rw [pickedOverlays, List.length_insertionSort, List.length_map, List.length_take]
          exact min_le_left _ _
  · rw [renderTraces, List.length_take]
    exact min_le_left _ _

/-- Counterexample to C3 as stated: on `dC` the app.js query engine (also
cited by the claim) emits its curves with overlay values in the order
(5, 3, 7) — descending coverage, not re-sorted ascending — and the third
emitted curve belongs to an overlay group whose support 1 is below the
minimum-support threshold of 4, which was never dropped. -/
theorem claim3_cex :
    (renderTraces dC Var.phi Var.W svC YCol.delta_xsec_ratio).map SelTrace.ovVal =
      [5, 3, 7] ∧
    ¬ ((renderTraces dC Var.phi Var.W svC YCol.delta_xsec_ratio).map
        SelTrace.ovVal).Pairwise (· ≤ ·) ∧
    ∃ t ∈ renderTraces dC Var.phi Var.W svC YCol.delta_xsec_ratio, t.n < 4 := by
  decide

/-- C4: every curve emitted by the part_000 engine has a non-decreasing
x sequence and only finite coordinates; every trace emitted by the app.js
engine has a non-decreasing x sequence (its points are extracted only after
an explicit finiteness check). -/
theorem claim4_sorted_finite (d : Data) (ycol : YCol) (xvar overlay : Var)
    (sv : Var → JVal) :
    (∀ t ∈ drawCompute d ycol xvar overlay sv,
      t.Pairwise (fun p r => p.1.q ≤ r.1.q) ∧
      ∀ p ∈ t, p.1.isFinite = true ∧ p.2.isFinite = true) ∧
    (∀ tr ∈ renderTraces d xvar overlay sv ycol, tr.xs.Pairwise (· ≤ ·)) := by
  constructor
  · intro t ht
    rcases List.mem_filterMap.1 ht with ⟨ov, _, hf⟩
    simp only at hf
    by_cases hlen : (curveRaw d ycol (VARCOL xvar) (VARCOL overlay)
        (fixedOf xvar overlay sv) ov).length < 4
    · rw [if_pos hlen] at hf
      cases hf
    · rw [if_neg hlen] at hf
      injection hf with hf
      subst hf
      constructor
      · exact List.sorted_insertionSort ptR _
      · intro p hp
        exact curveRaw_finite d ycol (VARCOL xvar) (VARCOL overlay)
          (fixedOf xvar overlay sv) ov p ((List.mem_insertionSort _).1 hp)
  · intro tr htr
    have htr2 := (List.take_sublist 8 _).subset htr
    rw [currentSelection] at htr2
    have htr3 := (List.mem_insertionSort _).1 htr2
    rcases List.mem_map.1 htr3 with ⟨g, _, rfl⟩
    exact List.sorted_insertionSort (· ≤ ·) _

/-- Witness for C4 at the 10-row spec-scenario table. -/
theorem claim4_witness :
    ((drawCompute dA YCol.delta_xsec_ratio Var.phi Var.W svA).headD []).Pairwise
      (fun p r => p.1.q ≤ r.1.q) ∧
    ∀ p ∈ (drawCompute dA YCol.delta_xsec_ratio Var.phi Var.W svA).headD [],
      p.1.isFinite = true ∧ p.2.isFinite = true :=
  (claim4_sorted_finite dA YCol.delta_xsec_ratio Var.phi Var.W svA).1 _ (by decide)

/-- C9 (amended): the part_000 `buildCurves` keeps every collected (x, y)
pair of a qualifying overlay value — the emitted curve is a permutation of
the collected point list (so tied x values are all retained) of the same
length; the app.js `currentSelection` path instead collapses rows sharing an
x value through its per-overlay `Map`, keeping only the last row's y. -/
theorem claim9_ties_kept (d : Data) (ycol : YCol) (xvar : Var)
    (overlayKey : ColKey) (fixed : List (ColKey × JVal)) (overlayList : List ℚ)
    (mp : Nat) (ov : ℚ) (hmem : ov ∈ overlayList)
    (hlen : mp ≤ (curveRaw d ycol (VARCOL xvar) overlayKey fixed ov).length) :
    (curveRaw d ycol (VARCOL xvar) overlayKey fixed ov).insertionSort ptR ∈
      buildCurvesTraces d ycol xvar overlayKey fixed overlayList mp ∧
    ((curveRaw d ycol (VARCOL xvar) overlayKey fixed ov).insertionSort ptR).Perm
      (curveRaw d ycol (VARCOL xvar) overlayKey fixed ov) ∧
    ((curveRaw d ycol (VARCOL xvar) overlayKey fixed ov).insertionSort ptR).length =
      (curveRaw d ycol (VARCOL xvar) overlayKey fixed ov).length := by
  refine ⟨?_, List.perm_insertionSort _ _, List.length_insertionSort _ _⟩
  apply List.mem_filterMap.2
  refine ⟨ov, hmem, ?_⟩
  simp only
  rw [if_neg (by omega)]

/-- Witness for C9 at the tie table `d9`: the emitted part_000 curve retains
both points at x = 1, in stable (row) order. -/
theorem claim9_witness :
    ((curveRaw d9 YCol.delta_xsec_ratio (VARCOL Var.phi) (VARCOL Var.W)
        (fixedOf Var.phi Var.W sv9) 1).insertionSort ptR ∈
      buildCurvesTraces d9 YCol.delta_xsec_ratio Var.phi (VARCOL Var.W)
        (fixedOf Var.phi Var.W sv9) [1] 4 ∧
     ((curveRaw d9 YCol.delta_xsec_ratio (VARCOL Var.phi) (VARCOL Var.W)
        (fixedOf Var.phi Var.W sv9) 1).insertionSort ptR).Perm
      (curveRaw d9 YCol.delta_xsec_ratio (VARCOL Var.phi) (VARCOL Var.W)
        (fixedOf Var.phi Var.W sv9) 1) ∧
     ((curveRaw d9 YCol.delta_xsec_ratio (VARCOL Var.phi) (VARCOL Var.W)
        (fixedOf Var.phi Var.W sv9) 1).insertionSort ptR).length =
      (curveRaw d9 YCol.delta_xsec_ratio (VARCOL Var.phi) (VARCOL Var.W)
        (fixedOf Var.phi Var.W sv9) 1).length) ∧
    drawCompute d9 YCol.delta_xsec_ratio Var.phi Var.W sv9 =
      [[(JVal.fin 1, JVal.fin 5), (JVal.fin 1, JVal.fin 7), (JVal.fin 2, JVal.fin 8),
        (JVal.fin 3, JVal.fin 9), (JVal.fin 4, JVal.fin 10)]] :=
  ⟨claim9_ties_kept d9 YCol.delta_xsec_ratio Var.phi (VARCOL Var.W)
      (fixedOf Var.phi Var.W sv9) [1] 4 1 (by decide) (by decide),
   by decide⟩

/-- Counterexample to C9 as stated: on `d9` two admitted rows of the same
overlay slice share x = 1 (with y values 5 and 7), yet the app.js curve
builder emits a single point at x = 1 carrying only the later row's y = 7 —
ties are collapsed, not retained. -/
theorem claim9_cex :
    csMask d9 YCol.delta_xsec_ratio Var.phi Var.W sv9 0 = true ∧
    csMask d9 YCol.delta_xsec_ratio Var.phi Var.W sv9 1 = true ∧
    d9.phi_deg.getD 0 JVal.nan = JVal.fin 1 ∧
    d9.phi_deg.getD 1 JVal.nan = JVal.fin 1 ∧
    d9.delta_xsec_ratio.getD 0 JVal.nan = JVal.fin 5 ∧
    d9.delta_xsec_ratio.getD 1 JVal.nan = JVal.fin 7 ∧
    currentSelection d9 Var.phi Var.W sv9 YCol.delta_xsec_ratio =
      [SelTrace.mk 1 [1, 2, 3, 4] [7, 8, 9, 10] 4] := by
  decide

/-- C2 (amended): the `groupCoverage` admission mask holds iff the
kinematics flag holds, the metric-specific flag holds, the selected metric's
value is finite, and every fixed-axis constraint matches within the
axis-specific tolerance ε (both stored value and target finite and
|value - target| ≤ ε); ε is 1e-3 for φ* and the strictly smaller 1e-6 for
W, Q2 and cosθ*.  (The app.js `currentSelection` mask instead compares fixed
axes with exact `===` equality; see `csMask`.) -/
theorem claim2_mask_iff (d : Data) (ycol : YCol) (fixed : List (ColKey × JVal))
    (i : Nat) :
    (maskAt d ycol fixed i = true ↔
      (d.ok_kin.getD i false = true ∧
       (d.yOkArr ycol).getD i false = true ∧
       ((d.ycolArr ycol).getD i JVal.nan).isFinite = true ∧
       ∀ kv ∈ fixed, ∃ c w : ℚ,
         (d.col kv.1).getD i JVal.nan = JVal.fin c ∧ kv.2 = JVal.fin w ∧
         |c - w| ≤ epsOf kv.1)) ∧
    epsOf ColKey.phi_deg = 1/1000 ∧
    epsOf ColKey.w_r = 1/1000000 ∧
    epsOf ColKey.q2_r = 1/1000000 ∧
    epsOf ColKey.ct_r = 1/1000000 ∧
    epsOf ColKey.w_r < epsOf ColKey.phi_deg := by
  have e1 : epsOf ColKey.phi_deg = 1/1000 := by
    simp only [epsOf, Rat.mkRat_eq_divInt, Rat.divInt_eq_div]; norm_num
  have e2 : epsOf ColKey.w_r = 1/1000000 := by
    simp only [epsOf, Rat.mkRat_eq_divInt, Rat.divInt_eq_div]; norm_num
  have e3 : epsOf ColKey.q2_r = 1/1000000 := by
    simp only [epsOf, Rat.mkRat_eq_divInt, Rat.divInt_eq_div]; norm_num
  have e4 : epsOf ColKey.ct_r = 1/1000000 := by
    simp only [epsOf, Rat.mkRat_eq_divInt, Rat.divInt_eq_div]; norm_num
  refine ⟨?_, e1, e2, e3, e4, by decide⟩
  rw [maskAt, Bool.and_eq_true, fixedMatch, List.all_eq_true]
  cases ycol <;>
  · rw [baseMask]
    simp only [Data.yOkArr, Data.ycolArr, Bool.and_eq_true, and_assoc]
    constructor
    · rintro ⟨h1, h2, h3, h4⟩
      exact ⟨h1, h2, h3, fun kv hkv => (approxEq_iff _ _ _).1 (h4 kv hkv)⟩
    · rintro ⟨h1, h2, h3, h4⟩
      exact ⟨h1, h2, h3, fun kv hkv => (approxEq_iff _ _ _).2 (h4 kv hkv)⟩

/-- Counterexample to C2 as stated: row 0 of `d2` has the kinematics flag,
the δ flag, and both fixed-axis tolerance matches, yet the mask rejects it
because its δ value is NaN — the claimed three conditions are not sufficient
for admission. -/
theorem claim2_cex :
    maskAt d2 YCol.delta_xsec_ratio fx2 0 = false ∧
    d2.ok_kin.getD 0 false = true ∧
    d2.ok_delta.getD 0 false = true ∧
    approxEq (d2.ct_r.getD 0 JVal.nan) (JVal.fin 3) (epsOf ColKey.ct_r) = true ∧
    approxEq (d2.phi_deg.getD 0 JVal.nan) (JVal.fin 4) (epsOf ColKey.phi_deg) = true := by
  decide

end Exclurad
